import Mathlib

/-!
Shallow embedding of the MyNano terminal editor (src/MyNano.py).

Lines of the edited document are modelled as `List Char`, the document as a
`List Line`.  Python string/list primitives are embedded by small helper
functions (`pyInsert` for `list.insert`, `pySplit` for `str.split`,
`pyJoin` for `str.join`, `splitlines` for `str.splitlines` restricted to
the newline character, `pyStrip` for `str.strip`): Python slicing clamps
indices exactly as `List.take`/`List.drop` do.

The editing operations (`insert_char`, `split_line`, `backspace`,
`insert_text`) are translated from the key-dispatch branches of `main` and
from the top-level function `insert_text`; the main-loop state machine
(`step` on `FState`) carries filename, status message and dirty flag, with
the outcomes of external interactions (file system, modal dialogs) supplied
as event payloads.
-/

namespace MyNano

abbrev Line := List Char

/-- Python `list.insert i x`: inserts before index `i`, appending when `i`
is past the end (Python clamps, which `take`/`drop` reproduce). -/
def pyInsert (i : Nat) (x : α) (l : List α) : List α :=
  l.take i ++ x :: l.drop i

/-- Python `str.split(sep)` for a one-character separator: always returns a
non-empty list; consecutive separators yield empty segments. -/
def pySplit (sep : Char) : List Char → List (List Char)
  | [] => [[]]
  | c :: rest =>
    let r := pySplit sep rest
    if c = sep then [] :: r
    else (c :: r.headD []) :: r.tail

/-- Python `sep.join(lines)` for a one-character separator. -/
def pyJoin (sep : Char) : List (List Char) → List Char
  | [] => []
  | [l] => l
  | l :: ls => l ++ sep :: pyJoin sep ls

/-- Python `str.splitlines()` restricted to `'\n'` line boundaries (the
only line terminator the editor ever writes): splits on every newline and,
unlike `str.split`, produces no final empty segment for a trailing
newline, and `[]` for empty input. -/
def splitlines (c : List Char) : List (List Char) :=
  if c = [] then []
  else if c.getLast? = some '\n' then (pySplit '\n' c).dropLast
  else pySplit '\n' c

/-- `f.read().splitlines() or [""]` — the load path of `main` and of the
Ctrl+O handler: an empty split result becomes one empty line. -/
def loadLines (c : List Char) : List Line :=
  let L := splitlines c
  if L = [] then [[]] else L

/-- `save_file`: the file content written for a buffer, `'\n'.join(buffer)`
(the file-system call itself is external). -/
def save_file (buffer : List Line) : List Char :=
  pyJoin '\n' buffer

/-- The editing-buffer part of the main-loop state: `buffer`, `cursor_y`,
`cursor_x`, `dirty`. -/
structure EState where
  buffer : List Line
  cy : Nat
  cx : Nat
  dirty : Bool
deriving DecidableEq, Repr

/-- `buffer[cursor_y]` (in-range under the data-model invariant). -/
def curLine (s : EState) : Line := s.buffer.getD s.cy []

/-- Data-model invariant: the document is never empty, the cursor row is a
valid index and the cursor column is at most the current row's length. -/
def Inv (s : EState) : Prop :=
  s.buffer ≠ [] ∧ s.cy < s.buffer.length ∧ s.cx ≤ (curLine s).length

instance (s : EState) : Decidable (Inv s) := by
  unfold Inv; exact inferInstance

/-- Printable-key branch of `main` (keys 32–126):
`buffer[cursor_y] = buffer[cursor_y][:cursor_x] + chr(key) + buffer[cursor_y][cursor_x:]`,
column advances, dirty set. -/
def insert_char (c : Char) (s : EState) : EState :=
  { s with
    buffer := s.buffer.set s.cy ((curLine s).take s.cx ++ c :: (curLine s).drop s.cx)
    cx := s.cx + 1
    dirty := true }

/-- Enter branch of `main`: the tail of the current row from the column
onward becomes a new row inserted right after the truncated current row;
cursor moves to the start of that new row; dirty set. -/
def split_line (s : EState) : EState :=
  let row := curLine s
  { buffer := pyInsert (s.cy + 1) (row.drop s.cx) (s.buffer.set s.cy (row.take s.cx))
    cy := s.cy + 1
    cx := 0
    dirty := true }

/-- Backspace branch of `main`: delete before the cursor when the column is
positive; otherwise join the current row onto the previous one when the row
is positive; otherwise do nothing. -/
def backspace (s : EState) : EState :=
  if 0 < s.cx then
    { s with
      buffer := s.buffer.set s.cy ((curLine s).take (s.cx - 1) ++ (curLine s).drop s.cx)
      cx := s.cx - 1
      dirty := true }
  else if 0 < s.cy then
    { buffer := ((s.buffer.set (s.cy - 1) (s.buffer.getD (s.cy - 1) [] ++ curLine s)).eraseIdx s.cy)
      cy := s.cy - 1
      cx := (s.buffer.getD (s.cy - 1) []).length
      dirty := true }
  else s

/-- The `for line in lines[1:]` loop of `insert_text`: each remaining
segment is inserted as a new row after the previous one, the returned
column tracking the length of the segment last inserted. -/
def insertLoop : List Line → List Line → Nat → Nat → List Line × Nat × Nat
  | [], buf, y, x => (buf, y, x)
  | l :: rest, buf, y, _ => insertLoop rest (pyInsert (y + 1) l buf) (y + 1) l.length

/-- `insert_text(buffer, cursor_y, cursor_x, text)`: pads the buffer with
empty rows until the cursor row exists, splices the first segment of the
text into that row at the cursor column, then inserts the remaining
segments as new rows; returns the new buffer and cursor. -/
def insert_text (buffer : List Line) (cy cx : Nat) (text : List Char) :
    List Line × Nat × Nat :=
  let lines := pySplit '\n' text
  let buf1 := buffer ++ List.replicate (cy + 1 - buffer.length) []
  let row := buf1.getD cy []
  let buf2 := buf1.set cy (row.take cx ++ lines.headD [] ++ row.drop cx)
  insertLoop lines.tail buf2 cy (cx + (lines.headD []).length)

/-- Ctrl+V branch of `main` after paste capture: a non-empty capture is
handed to `insert_text` and sets dirty; an empty capture (cancelled paste)
changes nothing. -/
def insert_block (t : List Char) (s : EState) : EState :=
  if t = [] then s
  else
    let r := insert_text s.buffer s.cy s.cx t
    { buffer := r.1, cy := r.2.1, cx := r.2.2, dirty := true }

/-- The editing operations quantified over by the data-model guarantee. -/
inductive Op where
  | ins (c : Char)
  | enter
  | back
  | paste (t : List Char)
deriving DecidableEq, Repr

def applyOp (s : EState) : Op → EState
  | .ins c => insert_char c s
  | .enter => split_line s
  | .back => backspace s
  | .paste t => insert_block t s

/-- Per-frame viewport recompute of `main` (`visible_lines = h - 2`). -/
def adjustScroll (offset cy vis : Nat) : Nat :=
  if cy < offset then cy
  else if offset + vis ≤ cy then cy - vis + 1
  else offset

/-- Outcome of a file-system read, supplied by the environment: the file's
content, a `FileNotFoundError`, or any other exception (with its text). -/
inductive LoadRes where
  | ok (content : List Char)
  | notFound
  | err (msg : String)
deriving DecidableEq, Repr

/-- Full main-loop state: editing state plus filename, status message,
line-number toggle, and whether the loop has been exited via Ctrl+X. -/
structure FState where
  est : EState
  filename : Option String
  status : String
  lineNumbers : Bool
  exited : Bool
deriving DecidableEq, Repr

/-- The initial status message of `main`. -/
def initStatus : String :=
  "Ctrl+X: Exit | Ctrl+Shift+S: Save | Ctrl+O: Open | Ctrl+V: Paste | Ctrl+G: Help"

/-- The state of `main` after initialisation and the optional startup load:
with a filename, a successful read replaces the buffer
(`f.read().splitlines() or [""]`), `FileNotFoundError` keeps the fresh
buffer and warns, any other exception keeps the fresh buffer and reports;
dirty stays false throughout. -/
def startup (filename : Option String) (res : LoadRes) : FState :=
  let base : FState :=
    { est := { buffer := [[]], cy := 0, cx := 0, dirty := false }
      filename := filename
      status := initStatus
      lineNumbers := false
      exited := false }
  match filename with
  | none => base
  | some _ =>
    match res with
    | .ok c => { base with est := { base.est with buffer := loadLines c } }
    | .notFound => { base with status := "WARNING: File not found. Created new file." }
    | .err m => { base with status := "ERROR opening file: " ++ m }

/-- `confirm_exit(stdscr, filename, buffer, dirty)`: returns
`(exit_now, filename, dirty, message)`.  The user's choice (the inner loop
accepts only y/n/c), the save-as dialog result (used only when no filename
is set; `None` models an empty or failed entry) and the success of the
write are supplied by the environment.  The exception text of a failed
save is abstracted to a fixed message. -/
def confirm_exit (filename : Option String) (dirty : Bool)
    (choice : Char) (dialogName : Option String) (saveOk : Bool) :
    Bool × Option String × Bool × Option String :=
  if !dirty then (true, filename, dirty, none)
  else if choice = 'y' then
    match filename.orElse fun _ => dialogName with
    | none => (false, filename, dirty, none)
    | some f =>
      if saveOk then (true, some f, false, some ("Saved: " ++ f))
      else (false, some f, dirty, some "Save failed")
  else if choice = 'n' then (true, filename, dirty, none)
  else (false, filename, dirty, none)

/-- One decoded input event of the main loop.  Branches whose effect
depends on the environment (file system, modal dialogs, paste capture)
carry the environment's response as a payload. -/
inductive Ev where
  | printable (c : Char)
  | backspaceKey
  | enterKey
  | up | down | left | right
  | ctrlG
  | ctrlL
  | ctrlS (saveOk : Bool)
  | ctrlO (dialog : Option String) (res : LoadRes)
  | ctrlV (captured : List Char)
  | ctrlX (choice : Char) (dialogName : Option String) (saveOk : Bool)
  | idle
deriving DecidableEq, Repr

/-- One iteration of the key-dispatch part of `main`'s loop. -/
def step (s : FState) (e : Ev) : FState :=
  match e with
  | .ctrlX choice dn ok =>
    let r := confirm_exit s.filename s.est.dirty choice dn ok
    { s with
      filename := r.2.1
      est := { s.est with dirty := r.2.2.1 }
      status := (r.2.2.2).getD s.status
      exited := r.1 }
  | .ctrlS ok =>
    match s.filename with
    | some f =>
      if ok then { s with est := { s.est with dirty := false }, status := "Saved: " ++ f }
      else { s with status := "Save failed" }
    | none => s
  | .ctrlO dlg res =>
    match dlg with
    | none => s
    | some n =>
      match res with
      | .ok c =>
        { s with
          est := { s.est with buffer := loadLines c, dirty := false }
          filename := some n
          status := "Opened: " ++ n }
      | .notFound => { s with status := "File not found." }
      | .err m => { s with status := "Open failed: " ++ m }
  | .backspaceKey => { s with est := backspace s.est }
  | .enterKey => { s with est := split_line s.est }
  | .up =>
    if 0 < s.est.cy then
      { s with est := { s.est with
          cy := s.est.cy - 1
          cx := min s.est.cx (s.est.buffer.getD (s.est.cy - 1) []).length } }
    else s
  | .down =>
    if s.est.cy < s.est.buffer.length - 1 then
      { s with est := { s.est with
          cy := s.est.cy + 1
          cx := min s.est.cx (s.est.buffer.getD (s.est.cy + 1) []).length } }
    else s
  | .left => if 0 < s.est.cx then { s with est := { s.est with cx := s.est.cx - 1 } } else s
  | .right =>
    if s.est.cx < (curLine s.est).length then
      { s with est := { s.est with cx := s.est.cx + 1 } }
    else s
  | .ctrlG => s
  | .ctrlL => { s with lineNumbers := !s.lineNumbers }
  | .ctrlV cap =>
    if cap = [] then { s with status := "Paste canceled." }
    else
      let r := insert_text s.est.buffer s.est.cy s.est.cx cap
      { s with
        est := { buffer := r.1, cy := r.2.1, cx := r.2.2, dirty := true }
        status := "Pasted " ++ toString cap.length ++ " chars!" }
  | .printable c =>
    if 32 ≤ c.toNat ∧ c.toNat ≤ 126 then { s with est := insert_char c s.est } else s
  | .idle => s

/-- Events that mutate the document (and therefore set the dirty flag):
an in-range printable key, Enter, a backspace with something to delete,
and a non-empty paste capture. -/
def setsDirty (s : FState) : Ev → Prop
  | .printable c => 32 ≤ c.toNat ∧ c.toNat ≤ 126
  | .enterKey => True
  | .backspaceKey => 0 < s.est.cx ∨ 0 < s.est.cy
  | .ctrlV cap => cap ≠ []
  | _ => False

/-- Events that clear the dirty flag: a successful save (Ctrl+S with a
filename set, or a save during exit confirmed with choice y, a name to
save under, and a successful write) or a successful open. -/
def clearsDirty (s : FState) : Ev → Prop
  | .ctrlS ok => ok = true ∧ s.filename ≠ none
  | .ctrlO dlg res => dlg ≠ none ∧ ∃ c, res = .ok c
  | .ctrlX choice dn ok => choice = 'y' ∧ ok = true ∧ (s.filename ≠ none ∨ dn ≠ none)
  | _ => False

/-- Python `str.isprintable()` for a single character, modelled on the
ASCII range (the range the dialog analysis needs). -/
def pyPrintable (c : Char) : Bool :=
  32 ≤ c.toNat && c.toNat < 127

/-- Python whitespace for `str.strip()`. -/
def pyIsSpace (c : Char) : Bool :=
  c = ' ' || c = '\t' || c = '\n' || c = '\r' || c = '\x0b' || c = '\x0c'

/-- Python `str.strip()`. -/
def pyStrip (l : List Char) : List Char :=
  ((l.dropWhile pyIsSpace).reverse.dropWhile pyIsSpace).reverse

/-- `os.path.commonprefix` on two paths: longest common prefix. -/
def commonPrefix2 : List Char → List Char → List Char
  | a :: as, b :: bs => if a = b then a :: commonPrefix2 as bs else []
  | _, _ => []

/-- `os.path.commonprefix` on a list of paths. -/
def commonprefix : List (List Char) → List Char
  | [] => []
  | l :: ls => ls.foldl commonPrefix2 l

/-- Mutable state of the `open_file_dialog` input loop. -/
structure DState where
  path : List Char
  suggestions : List (List Char)
deriving DecidableEq, Repr

/-- One input unit delivered by `stdscr.get_wch()`: a one-character string
for ordinary keys (`ch c`), an integer key code for function keys
(`key n`).  A Tab press (`get_wch` returns the string `"\t"`) triggers a
`glob.glob(path + "*")` call; `tab` carries the glob result and, for a
single match, whether it is a directory. -/
inductive DEv where
  | ch (c : Char)
  | key (n : Nat)
  | tab (ms : List (List Char)) (isDir : Bool)
deriving DecidableEq, Repr

/-- `curses.KEY_BACKSPACE`. -/
def KEY_BACKSPACE : Nat := 263

/-- Result of one iteration of the `open_file_dialog` loop: keep looping
with a new state, or leave the loop with the final `path`. -/
inductive DStep where
  | cont (s : DState)
  | done (path : List Char)
deriving DecidableEq, Repr

/-- The body of the `open_file_dialog` `while True` loop after `get_wch`,
including the unreachable `ch == 27` comparison (a string returned for the
Escape key never equals the integer 27). -/
def dialogStep (maxLen : Nat) (s : DState) (e : DEv) : DStep :=
  match e with
  | .ch c =>
    if c = '\n' ∨ c = '\r' then .done s.path
    else if c = '\x08' ∨ c = '\x7f' then .cont { s with path := s.path.dropLast }
    else if pyPrintable c then
      .cont (if s.path.length < maxLen then { s with path := s.path ++ [c] } else s)
    else .cont s
  | .key n =>
    if n = KEY_BACKSPACE then .cont { s with path := s.path.dropLast }
    else if n = 27 then .done []
    else .cont s
  | .tab ms isDir =>
    if ms.length = 1 then
      let comp := ms.headD []
      let comp := if isDir then comp ++ ['/'] else comp
      .cont { path := comp, suggestions := [] }
    else if 1 < ms.length then
      .cont { path := commonprefix ms, suggestions := ms }
    else .cont { s with suggestions := [] }

/-- `return path.strip() or None` after the loop. -/
def dialogFinish (path : List Char) : Option (List Char) :=
  let p := pyStrip path
  if p = [] then none else some p

/-- Runs the dialog loop on a list of input events; `none` when the events
are exhausted without a terminating key (the real loop would block). -/
def runDialog (maxLen : Nat) (s : DState) : List DEv → Option (Option (List Char))
  | [] => none
  | e :: es =>
    match dialogStep maxLen s e with
    | .done p => some (dialogFinish p)
    | .cont s' => runDialog maxLen s' es

/-! ## List helper lemmas -/

theorem length_pyInsert (i : Nat) (x : α) (l : List α) :
    (pyInsert i x l).length = l.length + 1 := by
  simp [pyInsert]; omega

theorem getD_pyInsert_self (i : Nat) (x : Line) (l : List Line) (h : i ≤ l.length) :
    (pyInsert i x l).getD i [] = x := by
  rw [pyInsert, List.getD_eq_getElem?_getD,
    List.getElem?_append_right (by simp [Nat.min_le_left])]
  simp [Nat.min_eq_left h]

theorem getD_set_self (l : List Line) (i : Nat) (v : Line) (h : i < l.length) :
    (l.set i v).getD i [] = v := by
  rw [List.getD_eq_getElem?_getD, List.getElem?_set_self h]
  rfl

theorem take_set_succ (b : List Line) (i : Nat) (v : Line) (h : i < b.length) :
    (b.set i v).take (i + 1) = b.take i ++ [v] := by
  rw [List.set_eq_take_cons_drop v h, List.take_append_eq_append_take]
  simp [Nat.min_eq_left (Nat.le_of_lt h)]

theorem drop_set_succ (b : List Line) (i : Nat) (v : Line) :
    (b.set i v).drop (i + 1) = b.drop (i + 1) := by
  rw [List.drop_set]
  simp

theorem set_then_eraseIdx (b : List Line) (i : Nat) (v : Line) (h : i + 1 < b.length) :
    ((b.set i v).eraseIdx (i + 1)) = b.take i ++ v :: b.drop (i + 2) := by
  rw [List.eraseIdx_eq_take_drop_succ, take_set_succ b i v (by omega)]
  have : (b.set i v).drop (i + 1 + 1) = b.drop (i + 2) := by
    rw [List.drop_set, if_pos (by omega)]
  rw [this]
  simp

/-! ## C6: viewport recompute invariant -/

/-- C6: after the per-frame recompute, the cursor row lies inside the
visible window `[scroll_offset, scroll_offset + visible_row_count)`, for
every prior offset and every cursor row, given at least one visible row. -/
theorem c6_adjustScroll_bounds (offset cy vis : Nat) (h : 1 ≤ vis) :
    adjustScroll offset cy vis ≤ cy ∧ cy < adjustScroll offset cy vis + vis := by
  unfold adjustScroll
  split_ifs <;> omega

theorem c6_adjustScroll_bounds_witness :
    1 ≤ 5 ∧ (adjustScroll 3 20 5 ≤ 20 ∧ 20 < adjustScroll 3 20 5 + 5) :=
  ⟨by decide, c6_adjustScroll_bounds 3 20 5 (by decide)⟩

/-! ## C9: nonexistent path at startup -/

/-- C9: opening a nonexistent path at startup is recovered locally: the
session proceeds with the fresh one-empty-line document, the status
message is the file-not-found warning, and the dirty flag is false. -/
theorem c9_startup_not_found (name : String) :
    (startup (some name) .notFound).est.buffer = [[]] ∧
    (startup (some name) .notFound).status = "WARNING: File not found. Created new file." ∧
    (startup (some name) .notFound).est.dirty = false :=
  ⟨rfl, rfl, rfl⟩

/-! ## C2: backspace case analysis -/

/-- C2: backspace by three exhaustive cases — column > 0 removes the
character before the cursor and decrements the column; column = 0 on a
positive row joins the current row onto the previous one, removes it, and
puts the cursor at the previous row's former length; column = 0 on row 0
changes nothing.  Dirty is set exactly in the first two cases, and the
spec's concrete scenario holds. -/
theorem c2_backspace_cases (s : EState) (h : Inv s) :
    (0 < s.cx →
      backspace s =
        { buffer := s.buffer.take s.cy ++
            ((curLine s).eraseIdx (s.cx - 1)) :: s.buffer.drop (s.cy + 1)
          cy := s.cy, cx := s.cx - 1, dirty := true }) ∧
    (s.cx = 0 → 0 < s.cy →
      backspace s =
        { buffer := s.buffer.take (s.cy - 1) ++
            (s.buffer.getD (s.cy - 1) [] ++ curLine s) :: s.buffer.drop (s.cy + 1)
          cy := s.cy - 1, cx := (s.buffer.getD (s.cy - 1) []).length, dirty := true }) ∧
    (s.cx = 0 → s.cy = 0 → backspace s = s) ∧
    backspace ⟨[['a', 'b'], ['c', 'd']], 1, 0, false⟩ = ⟨[['a', 'b', 'c', 'd']], 0, 2, true⟩ := by
  obtain ⟨-, h2, -⟩ := h
  refine ⟨?_, ?_, ?_, by decide⟩
  · intro hx
    rw [backspace, if_pos hx, List.set_eq_take_cons_drop _ h2,
      List.eraseIdx_eq_take_drop_succ]
    have : s.cx - 1 + 1 = s.cx := by omega
    rw [this]
  · intro hx hy
    rw [backspace, if_neg (by omega), if_pos hy]
    have hcy : s.cy - 1 + 1 = s.cy := by omega
    have := set_then_eraseIdx s.buffer (s.cy - 1)
      (s.buffer.getD (s.cy - 1) [] ++ curLine s) (by omega)
    rw [hcy] at this
    rw [this]
    have : s.cy - 1 + 2 = s.cy + 1 := by omega
    rw [this]
  · intro hx hy
    rw [backspace, if_neg (by omega), if_neg (by omega)]

theorem c2_backspace_cases_witness :
    Inv ⟨[['a', 'b'], ['c', 'd']], 1, 0, false⟩ ∧
    (backspace ⟨[['a', 'b'], ['c', 'd']], 1, 0, false⟩ = ⟨[['a', 'b', 'c', 'd']], 0, 2, true⟩) :=
  ⟨by decide, (c2_backspace_cases ⟨[['a', 'b'], ['c', 'd']], 1, 0, false⟩ (by decide)).2.2.2⟩

/-! ## C3: split_line -/

/-- C3: Enter replaces the current row by its prefix before the column,
inserts the suffix from the column onward as a new row immediately after,
moves the cursor to the start of that row, and sets dirty; at
column = row length the inserted row is empty, and at column = 0 the whole
row is pushed down below an empty row. -/
theorem c3_split_line_spec (s : EState) (h : Inv s) :
    (split_line s).buffer =
      s.buffer.take s.cy ++
        (curLine s).take s.cx :: (curLine s).drop s.cx :: s.buffer.drop (s.cy + 1) ∧
    (split_line s).cy = s.cy + 1 ∧ (split_line s).cx = 0 ∧ (split_line s).dirty = true ∧
    (s.cx = (curLine s).length → (curLine s).drop s.cx = []) ∧
    (s.cx = 0 → (curLine s).take s.cx = [] ∧ (curLine s).drop s.cx = curLine s) := by
  obtain ⟨-, h2, -⟩ := h
  refine ⟨?_, rfl, rfl, rfl, ?_, ?_⟩
  · show pyInsert (s.cy + 1) _ _ = _
    rw [pyInsert, take_set_succ _ _ _ h2, drop_set_succ]
    simp
  · intro hx; rw [hx, List.drop_length]
  · intro hx; rw [hx]; exact ⟨rfl, rfl⟩

theorem c3_split_line_spec_witness :
    Inv ⟨[['a', 'b']], 0, 1, false⟩ ∧
    ((split_line ⟨[['a', 'b']], 0, 1, false⟩).buffer =
        [] ++ ['a'] :: ['b'] :: [] ∧
      (split_line ⟨[['a', 'b']], 0, 1, false⟩).cy = 1 ∧
      (split_line ⟨[['a', 'b']], 0, 1, false⟩).cx = 0 ∧
      (split_line ⟨[['a', 'b']], 0, 1, false⟩).dirty = true ∧
      (1 = (curLine ⟨[['a', 'b']], 0, 1, false⟩).length →
        (curLine ⟨[['a', 'b']], 0, 1, false⟩).drop 1 = []) ∧
      (1 = 0 → (curLine ⟨[['a', 'b']], 0, 1, false⟩).take 1 = [] ∧
        (curLine ⟨[['a', 'b']], 0, 1, false⟩).drop 1 = curLine ⟨[['a', 'b']], 0, 1, false⟩)) :=
  ⟨by decide, c3_split_line_spec ⟨[['a', 'b']], 0, 1, false⟩ (by decide)⟩

/-! ## C1: the data-model invariant is preserved by all editing operations -/

theorem inv_insert_char (c : Char) (s : EState) (h : Inv s) : Inv (insert_char c s) := by
  obtain ⟨-, h2, h3⟩ := h
  have hlen : (insert_char c s).buffer.length = s.buffer.length := by
    simp [insert_char]
  refine ⟨List.ne_nil_of_length_pos (by omega), by simpa [insert_char] using h2, ?_⟩
  have hrow : curLine (insert_char c s) =
      (curLine s).take s.cx ++ c :: (curLine s).drop s.cx := by
    unfold curLine insert_char
    exact getD_set_self _ _ _ h2
  show s.cx + 1 ≤ (curLine (insert_char c s)).length
  rw [hrow]
  simp [Nat.min_eq_left h3]

theorem inv_split_line (s : EState) (h : Inv s) : Inv (split_line s) := by
  obtain ⟨-, h2, -⟩ := h
  have hlen : (split_line s).buffer.length = s.buffer.length + 1 := by
    simp [split_line, length_pyInsert]
  refine ⟨List.ne_nil_of_length_pos (by rw [hlen]; omega), ?_, Nat.zero_le _⟩
  show s.cy + 1 < (split_line s).buffer.length
  rw [hlen]
  omega

theorem inv_backspace (s : EState) (h : Inv s) : Inv (backspace s) := by
  obtain ⟨h1, h2, h3⟩ := h
  by_cases hx : 0 < s.cx
  · have hb : backspace s =
        { buffer := s.buffer.set s.cy ((curLine s).take (s.cx - 1) ++ (curLine s).drop s.cx)
          cy := s.cy, cx := s.cx - 1, dirty := true } := by
      rw [backspace, if_pos hx]
    rw [hb]
    refine ⟨List.ne_nil_of_length_pos (by simp; omega), by simpa using h2, ?_⟩
    show s.cx - 1 ≤ (curLine _).length
    have hrow : curLine
        ({ buffer := s.buffer.set s.cy ((curLine s).take (s.cx - 1) ++ (curLine s).drop s.cx)
           cy := s.cy, cx := s.cx - 1, dirty := true } : EState) =
        (curLine s).take (s.cx - 1) ++ (curLine s).drop s.cx := by
      unfold curLine
      exact getD_set_self _ _ _ h2
    rw [hrow]
    simp
    omega
  · by_cases hy : 0 < s.cy
    · have hb : backspace s =
          { buffer := ((s.buffer.set (s.cy - 1)
                (s.buffer.getD (s.cy - 1) [] ++ curLine s)).eraseIdx s.cy)
            cy := s.cy - 1, cx := (s.buffer.getD (s.cy - 1) []).length, dirty := true } := by
        rw [backspace, if_neg hx, if_pos hy]
      have hcy : s.cy - 1 + 1 = s.cy := by omega
      have herase := set_then_eraseIdx s.buffer (s.cy - 1)
        (s.buffer.getD (s.cy - 1) [] ++ curLine s) (by omega)
      rw [hcy] at herase
      rw [hb, herase]
      have hlen : (s.buffer.take (s.cy - 1) ++
          (s.buffer.getD (s.cy - 1) [] ++ curLine s) :: s.buffer.drop (s.cy - 1 + 2)).length
          = s.buffer.length - 1 := by
        simp
        omega
      refine ⟨List.ne_nil_of_length_pos (by rw [hlen]; omega), ?_, ?_⟩
      · show s.cy - 1 < _
        rw [hlen]
        omega
      show (s.buffer.getD (s.cy - 1) []).length ≤ (curLine _).length
      have htl : (s.buffer.take (s.cy - 1)).length = s.cy - 1 := by
        simp
        omega
      have hrow : curLine
          ({ buffer := s.buffer.take (s.cy - 1) ++
              (s.buffer.getD (s.cy - 1) [] ++ curLine s) :: s.buffer.drop (s.cy - 1 + 2)
             cy := s.cy - 1, cx := (s.buffer.getD (s.cy - 1) []).length, dirty := true } : EState) =
          s.buffer.getD (s.cy - 1) [] ++ curLine s := by
        unfold curLine
        rw [List.getD_eq_getElem?_getD, List.getElem?_append_right (by rw [htl])]
        rw [htl]
        simp
      rw [hrow]
      simp
    · have hb : backspace s = s := by
        rw [backspace, if_neg hx, if_neg hy]
      rw [hb]
      exact ⟨h1, h2, h3⟩

theorem insertLoop_inv (segs : List Line) (buf : List Line) (y x : Nat)
    (hy : y < buf.length) (hx : x ≤ (buf.getD y []).length) :
    (insertLoop segs buf y x).1 ≠ [] ∧
    (insertLoop segs buf y x).2.1 < (insertLoop segs buf y x).1.length ∧
    (insertLoop segs buf y x).2.2 ≤
      ((insertLoop segs buf y x).1.getD (insertLoop segs buf y x).2.1 []).length := by
  induction segs generalizing buf y x with
  | nil =>
    simp only [insertLoop]
    exact ⟨List.ne_nil_of_length_pos (by omega), hy, hx⟩
  | cons l rest ih =>
    simp only [insertLoop]
    apply ih
    · rw [length_pyInsert]; omega
    · rw [getD_pyInsert_self _ _ _ (by omega)]

theorem insert_text_inv (buffer : List Line) (cy cx : Nat) (t : List Char)
    (hy : cy < buffer.length) (hx : cx ≤ (buffer.getD cy []).length) :
    (insert_text buffer cy cx t).1 ≠ [] ∧
    (insert_text buffer cy cx t).2.1 < (insert_text buffer cy cx t).1.length ∧
    (insert_text buffer cy cx t).2.2 ≤
      ((insert_text buffer cy cx t).1.getD (insert_text buffer cy cx t).2.1 []).length := by
  have hpad : buffer ++ List.replicate (cy + 1 - buffer.length) ([] : Line) = buffer := by
    rw [Nat.sub_eq_zero_of_le (by omega)]
    simp
  unfold insert_text
  rw [hpad]
  apply insertLoop_inv
  · simpa using hy
  · rw [getD_set_self _ _ _ hy]
    simp only [List.length_append, List.length_take, List.length_drop]
    omega

theorem inv_insert_block (t : List Char) (s : EState) (h : Inv s) : Inv (insert_block t s) := by
  obtain ⟨h1, h2, h3⟩ := h
  by_cases ht : t = []
  · have hb : insert_block t s = s := by rw [insert_block, if_pos ht]
    rw [hb]
    exact ⟨h1, h2, h3⟩
  · have hb : insert_block t s =
        { buffer := (insert_text s.buffer s.cy s.cx t).1
          cy := (insert_text s.buffer s.cy s.cx t).2.1
          cx := (insert_text s.buffer s.cy s.cx t).2.2
          dirty := true } := by
      rw [insert_block, if_neg ht]
    rw [hb]
    exact insert_text_inv s.buffer s.cy s.cx t h2 h3

theorem inv_applyOp (s : EState) (o : Op) (h : Inv s) : Inv (applyOp s o) := by
  cases o with
  | ins c => exact inv_insert_char c s h
  | enter => exact inv_split_line s h
  | back => exact inv_backspace s h
  | paste t => exact inv_insert_block t s h

/-- C1: for every sequence of `insert_char`, `split_line`, `backspace` and
`insert_block` operations applied to a document and cursor satisfying the
data-model invariants, the document stays non-empty and the cursor stays
within bounds (row a valid index, column at most the row's length). -/
theorem c1_ops_preserve_invariant (ops : List Op) (s : EState) (h : Inv s) :
    Inv (ops.foldl applyOp s) := by
  induction ops generalizing s with
  | nil => exact h
  | cons o rest ih => exact ih _ (inv_applyOp s o h)

theorem c1_ops_preserve_invariant_witness :
    Inv ⟨[[]], 0, 0, false⟩ ∧
    Inv ([Op.ins 'h', Op.ins 'i', Op.enter, Op.paste ['x', '\n', 'y'], Op.back].foldl
      applyOp ⟨[[]], 0, 0, false⟩) :=
  ⟨by decide,
    c1_ops_preserve_invariant [Op.ins 'h', Op.ins 'i', Op.enter, Op.paste ['x', '\n', 'y'], Op.back]
      ⟨[[]], 0, 0, false⟩ (by decide)⟩

/-! ## C4: insert_text functional specification -/

theorem pySplit_ne_nil (sep : Char) (c : List Char) : pySplit sep c ≠ [] := by
  cases c with
  | nil => simp [pySplit]
  | cons a rest =>
    simp only [pySplit]
    split <;> simp

theorem pyJoin_cons (sep : Char) (l : List Char) (ls : List (List Char)) (h : ls ≠ []) :
    pyJoin sep (l :: ls) = l ++ sep :: pyJoin sep ls := by
  cases ls with
  | nil => exact absurd rfl h
  | cons b bs => rfl

theorem pyJoin_pySplit (sep : Char) (c : List Char) : pyJoin sep (pySplit sep c) = c := by
  induction c with
  | nil => rfl
  | cons a rest ih =>
    by_cases ha : a = sep
    · rw [pySplit, if_pos ha, pyJoin_cons sep [] _ (pySplit_ne_nil sep rest), ih, ha]
      rfl
    · rw [pySplit, if_neg ha]
      cases hr : pySplit sep rest with
      | nil => exact absurd hr (pySplit_ne_nil sep rest)
      | cons r0 rt =>
        rw [hr] at ih
        cases rt with
        | nil =>
          simp only [List.headD, List.tail]
          rw [show pyJoin sep [a :: r0] = a :: r0 from rfl]
          rw [show pyJoin sep [r0] = r0 from rfl] at ih
          rw [ih]
        | cons b bs =>
          simp only [List.headD, List.tail]
          rw [pyJoin_cons sep (a :: r0) (b :: bs) (by simp),
            pyJoin_cons sep r0 (b :: bs) (by simp)] at *
          rw [List.cons_append, ih]

theorem take_pyInsert_succ (i : Nat) (l : Line) (buf : List Line) (h : i ≤ buf.length) :
    (pyInsert i l buf).take (i + 1) = buf.take i ++ [l] := by
  rw [pyInsert, List.take_append_eq_append_take,
    List.take_of_length_le (by simp)]
  have h1 : i + 1 - (buf.take i).length = 1 := by simp; omega
  rw [h1]
  rfl

theorem drop_pyInsert_succ (i : Nat) (l : Line) (buf : List Line) (h : i ≤ buf.length) :
    (pyInsert i l buf).drop (i + 1) = buf.drop i := by
  rw [pyInsert, List.drop_append_eq_append_drop,
    List.drop_eq_nil_of_le (by simp)]
  have h1 : i + 1 - (buf.take i).length = 1 := by simp; omega
  rw [h1]
  rfl

theorem insertLoop_spec (segs : List Line) (buf : List Line) (y x : Nat)
    (h : y < buf.length) :
    insertLoop segs buf y x =
      (buf.take (y + 1) ++ segs ++ buf.drop (y + 1), y + segs.length,
        if segs = [] then x else (segs.getLastD []).length) := by
  induction segs generalizing buf y x with
  | nil =>
    simp [insertLoop, List.take_append_drop]
  | cons l rest ih =>
    simp only [insertLoop]
    rw [ih (pyInsert (y + 1) l buf) (y + 1) l.length (by rw [length_pyInsert]; omega)]
    rw [take_pyInsert_succ (y + 1) l buf (by omega), drop_pyInsert_succ (y + 1) l buf (by omega)]
    refine congrArg₂ Prod.mk ?_ (congrArg₂ Prod.mk (by simp; omega) ?_)
    · simp
    · cases rest with
      | nil => simp
      | cons b bs => simp [List.getLastD_cons]

/-- C4: `insert_text` splits the text on line breaks, splices the first
segment into the current row at the current column, inserts every further
segment as a new row after the previous one, and returns the cursor at
(original row, original column + text length) for a single segment and at
(last inserted row, length of the last segment) otherwise; the spec's
concrete paste scenario holds. -/
theorem c4_insert_text_spec (buffer : List Line) (cy cx : Nat) (text : List Char)
    (hy : cy < buffer.length) (hx : cx ≤ (buffer.getD cy []).length) :
    insert_text buffer cy cx text =
      (buffer.take cy ++
          ((buffer.getD cy []).take cx ++ (pySplit '\n' text).headD [] ++
            (buffer.getD cy []).drop cx) ::
          ((pySplit '\n' text).tail ++ buffer.drop (cy + 1)),
        cy + (pySplit '\n' text).tail.length,
        if (pySplit '\n' text).tail = [] then cx + ((pySplit '\n' text).headD []).length
        else ((pySplit '\n' text).tail.getLastD []).length) ∧
    ((pySplit '\n' text).tail = [] →
      (insert_text buffer cy cx text).2.1 = cy ∧
      (insert_text buffer cy cx text).2.2 = cx + text.length) ∧
    ((pySplit '\n' text).tail ≠ [] →
      (insert_text buffer cy cx text).2.1 = cy + (pySplit '\n' text).tail.length ∧
      (insert_text buffer cy cx text).2.2 = ((pySplit '\n' text).tail.getLastD []).length) ∧
    insert_text [[]] 0 0 ['x', '\n', 'y', '\n', 'z'] = ([['x'], ['y'], ['z']], 2, 1) := by
  have hpad : buffer ++ List.replicate (cy + 1 - buffer.length) ([] : Line) = buffer := by
    rw [Nat.sub_eq_zero_of_le (by omega)]
    simp
  have hmain : insert_text buffer cy cx text =
      (buffer.take cy ++
          ((buffer.getD cy []).take cx ++ (pySplit '\n' text).headD [] ++
            (buffer.getD cy []).drop cx) ::
          ((pySplit '\n' text).tail ++ buffer.drop (cy + 1)),
        cy + (pySplit '\n' text).tail.length,
        if (pySplit '\n' text).tail = [] then cx + ((pySplit '\n' text).headD []).length
        else ((pySplit '\n' text).tail.getLastD []).length) := by
    unfold insert_text
    rw [hpad]
    rw [insertLoop_spec _ _ _ _ (by simpa using hy)]
    rw [take_set_succ _ _ _ hy, drop_set_succ]
    simp
  refine ⟨hmain, ?_, ?_, by decide⟩
  · intro htail
    rw [hmain]
    have hhead : (pySplit '\n' text).headD [] = text := by
      cases hsp : pySplit '\n' text with
      | nil => exact absurd hsp (pySplit_ne_nil '\n' text)
      | cons h0 t0 =>
        have ht0 : t0 = [] := by
          have h3 : (pySplit '\n' text).tail = t0 := by rw [hsp]; rfl
          rw [h3] at htail; exact htail
        have h4 := pyJoin_pySplit '\n' text
        have hj : pyJoin '\n' [h0] = h0 := rfl
        rw [hsp, ht0, hj] at h4
        rw [ht0]
        exact h4
    constructor
    · show cy + (pySplit '\n' text).tail.length = cy
      rw [htail]
      rfl
    · show (if (pySplit '\n' text).tail = [] then cx + ((pySplit '\n' text).headD []).length
        else ((pySplit '\n' text).tail.getLastD []).length) = cx + text.length
      rw [if_pos htail, hhead]
  · intro htail
    rw [hmain]
    refine ⟨rfl, ?_⟩
    show (if (pySplit '\n' text).tail = [] then cx + ((pySplit '\n' text).headD []).length
        else ((pySplit '\n' text).tail.getLastD []).length) =
      ((pySplit '\n' text).tail.getLastD []).length
    rw [if_neg htail]

theorem c4_insert_text_spec_witness :
    (0 < ([['a', 'b']] : List Line).length ∧
      1 ≤ (([['a', 'b']] : List Line).getD 0 []).length) ∧
    insert_text [['a', 'b']] 0 1 ['x', '\n', 'y'] =
      ([['a', 'x', 'b'], ['y']], 1, 1) := by
  refine ⟨⟨by decide, by decide⟩, ?_⟩
  have h := (c4_insert_text_spec [['a', 'b']] 0 1 ['x', '\n', 'y']
    (by decide) (by decide)).1
  rw [h]
  decide

/-! ## C10: insert_text on out-of-range rows (corrected) -/

/-- The claim's bound fails at a concrete input: `insert_text [] 0 1 "a"`
pads the buffer to `[""]`, splices to `["a"]`, and returns cursor `(0, 2)`,
whose column exceeds the resulting row's length 1. -/
theorem c10_out_of_bounds_cex :
    insert_text [] 0 1 ['a'] = ([['a']], 0, 2) ∧
    (([['a']] : List Line).getD 0 []).length < 2 := by
  constructor
  · rfl
  · decide

theorem getD_append_cons (A : List Line) (x : Line) (B : List Line) :
    (A ++ x :: B).getD A.length [] = x := by
  rw [List.getD_eq_getElem?_getD, List.getElem?_append_right (Nat.le_refl _)]
  simp

/-- C10 (amended): for a cursor row at or past the end of the buffer,
`insert_text` appends empty rows up to that row and splices there, the
resulting buffer being the original rows, then the padding rows, then the
text's segments; the returned row is always within bounds, and the
returned column is also within bounds provided the original column was 0
or the text contains a line break.  (With a break-free text and a positive
column the returned column exceeds the padded row, which is empty.) -/
theorem insertLoop_inv_ne (segs : List Line) (buf : List Line) (y x : Nat)
    (hs : segs ≠ []) (hy : y < buf.length) :
    (insertLoop segs buf y x).1 ≠ [] ∧
    (insertLoop segs buf y x).2.1 < (insertLoop segs buf y x).1.length ∧
    (insertLoop segs buf y x).2.2 ≤
      ((insertLoop segs buf y x).1.getD (insertLoop segs buf y x).2.1 []).length := by
  cases segs with
  | nil => exact absurd rfl hs
  | cons l rest =>
    simp only [insertLoop]
    apply insertLoop_inv
    · rw [length_pyInsert]; omega
    · rw [getD_pyInsert_self _ _ _ (by omega)]

/-- C10 (amended): for a cursor row at or past the end of the buffer,
`insert_text` appends empty rows up to that row and splices there, the
resulting buffer being the original rows, then the padding rows, then the
text's segments; the returned row is always within bounds, and the
returned column is also within bounds provided the original column was 0
or the text contains a line break.  (With a break-free text and a positive
column the returned column exceeds the padded row, which is empty, as the
counterexample shows.) -/
theorem c10_insert_text_pads (buffer : List Line) (cy cx : Nat) (text : List Char)
    (hy : buffer.length ≤ cy) :
    (insert_text buffer cy cx text).1 =
      buffer ++ List.replicate (cy - buffer.length) [] ++ pySplit '\n' text ∧
    (insert_text buffer cy cx text).2.1 < (insert_text buffer cy cx text).1.length ∧
    ((cx = 0 ∨ (pySplit '\n' text).tail ≠ []) →
      (insert_text buffer cy cx text).2.2 ≤
        ((insert_text buffer cy cx text).1.getD (insert_text buffer cy cx text).2.1 []).length) := by
  have hlen1 : (buffer ++ List.replicate (cy + 1 - buffer.length) ([] : Line)).length
      = cy + 1 := by
    simp
    omega
  have hrow : (buffer ++ List.replicate (cy + 1 - buffer.length) ([] : Line)).getD cy []
      = [] := by
    rw [List.getD_eq_getElem?_getD, List.getElem?_append_right hy,
      List.getElem?_replicate, if_pos (by omega)]
    rfl
  have htk : (buffer ++ List.replicate (cy + 1 - buffer.length) ([] : Line)).take cy
      = buffer ++ List.replicate (cy - buffer.length) [] := by
    rw [List.take_append_eq_append_take, List.take_of_length_le hy, List.take_replicate]
    have hm : (cy - buffer.length) ⊓ (cy + 1 - buffer.length) = cy - buffer.length := by omega
    rw [hm]
  have hunfold : insert_text buffer cy cx text =
      insertLoop (pySplit '\n' text).tail
        ((buffer ++ List.replicate (cy + 1 - buffer.length) []).set cy
          (((buffer ++ List.replicate (cy + 1 - buffer.length) []).getD cy []).take cx ++
            (pySplit '\n' text).headD [] ++
            ((buffer ++ List.replicate (cy + 1 - buffer.length) []).getD cy []).drop cx))
        cy (cx + ((pySplit '\n' text).headD []).length) := rfl
  have hmain : insert_text buffer cy cx text =
      ((buffer ++ List.replicate (cy - buffer.length) []) ++
          ((pySplit '\n' text).headD [] :: (pySplit '\n' text).tail),
        cy + (pySplit '\n' text).tail.length,
        if (pySplit '\n' text).tail = [] then cx + ((pySplit '\n' text).headD []).length
        else ((pySplit '\n' text).tail.getLastD []).length) := by
    rw [hunfold, hrow]
    simp only [List.take_nil, List.drop_nil, List.nil_append, List.append_nil]
    rw [insertLoop_spec _ _ _ _ (by rw [List.length_set, hlen1]; omega)]
    rw [take_set_succ _ _ _ (by rw [hlen1]; omega), drop_set_succ, htk,
      List.drop_eq_nil_of_le (by rw [hlen1])]
    simp
  have hsplit : (pySplit '\n' text).headD [] :: (pySplit '\n' text).tail
      = pySplit '\n' text := by
    cases hsp : pySplit '\n' text with
    | nil => exact absurd hsp (pySplit_ne_nil '\n' text)
    | cons h0 t0 => rfl
  refine ⟨?_, ?_, ?_⟩
  · rw [hmain]
    show (buffer ++ List.replicate (cy - buffer.length) []) ++
        ((pySplit '\n' text).headD [] :: (pySplit '\n' text).tail) =
      buffer ++ List.replicate (cy - buffer.length) [] ++ pySplit '\n' text
    rw [hsplit]
  · rw [hmain]
    show cy + (pySplit '\n' text).tail.length <
      ((buffer ++ List.replicate (cy - buffer.length) []) ++
        ((pySplit '\n' text).headD [] :: (pySplit '\n' text).tail)).length
    simp
    omega
  · intro hcase
    rcases hcase with hcx | htail
    · rw [hunfold]
      refine (insertLoop_inv _ _ _ _ ?_ ?_).2.2
      · rw [List.length_set, hlen1]; omega
      · rw [getD_set_self _ _ _ (by rw [hlen1]; omega), hrow, hcx]
        simp
    · rw [hunfold]
      exact (insertLoop_inv_ne _ _ _ _ htail (by rw [List.length_set, hlen1]; omega)).2.2

theorem c10_insert_text_pads_witness :
    ([] : List Line).length ≤ 2 ∧
    ((insert_text [] 2 0 ['a', '\n']).1 =
        [] ++ List.replicate 2 [] ++ pySplit '\n' ['a', '\n'] ∧
      (insert_text [] 2 0 ['a', '\n']).2.1 < (insert_text [] 2 0 ['a', '\n']).1.length ∧
      ((0 = 0 ∨ (pySplit '\n' ['a', '\n']).tail ≠ []) →
        (insert_text [] 2 0 ['a', '\n']).2.2 ≤
          ((insert_text [] 2 0 ['a', '\n']).1.getD (insert_text [] 2 0 ['a', '\n']).2.1 []).length)) :=
  ⟨by decide, c10_insert_text_pads [] 2 0 ['a', '\n'] (by decide)⟩

/-! ## C5: save/load round trip -/

theorem mem_pySplit_not_mem (sep : Char) (c : List Char) :
    ∀ l ∈ pySplit sep c, sep ∉ l := by
  induction c with
  | nil =>
    intro l hl
    simp [pySplit] at hl
    simp [hl]
  | cons a rest ih =>
    intro l hl
    rw [pySplit] at hl
    by_cases ha : a = sep
    · rw [if_pos ha] at hl
      rcases List.mem_cons.mp hl with h | h
      · simp [h]
      · exact ih l h
    · rw [if_neg ha] at hl
      cases hr : pySplit sep rest with
      | nil => exact absurd hr (pySplit_ne_nil sep rest)
      | cons r0 rt =>
        rw [hr] at hl
        rcases List.mem_cons.mp hl with h | h
        · subst h
          intro hmem
          rcases List.mem_cons.mp hmem with h | h
          · exact ha h.symm
          · have : r0 ∈ pySplit sep rest := by rw [hr]; exact List.mem_cons_self r0 rt
            exact ih r0 this h
        · have : l ∈ pySplit sep rest := by rw [hr]; exact List.mem_cons_of_mem r0 h
          exact ih l this

theorem pySplit_single (sep : Char) (l : List Char) (h : sep ∉ l) :
    pySplit sep l = [l] := by
  induction l with
  | nil => rfl
  | cons a l' ih =>
    have ha : a ≠ sep := fun hc => h (by simp [hc])
    have hl' : sep ∉ l' := fun hc => h (List.mem_cons_of_mem a hc)
    rw [pySplit, if_neg ha, ih hl']
    rfl

theorem pySplit_append_cons (sep : Char) (l r : List Char) (h : sep ∉ l) :
    pySplit sep (l ++ sep :: r) = l :: pySplit sep r := by
  induction l with
  | nil =>
    show pySplit sep (sep :: r) = [] :: pySplit sep r
    rw [pySplit, if_pos rfl]
  | cons a l' ih =>
    have ha : a ≠ sep := fun hc => h (by simp [hc])
    have hl' : sep ∉ l' := fun hc => h (List.mem_cons_of_mem a hc)
    show pySplit sep (a :: (l' ++ sep :: r)) = (a :: l') :: pySplit sep r
    rw [pySplit, if_neg ha, ih hl']
    rfl

theorem pySplit_pyJoin (sep : Char) (L : List (List Char)) (hne : L ≠ [])
    (hfree : ∀ l ∈ L, sep ∉ l) :
    pySplit sep (pyJoin sep L) = L := by
  induction L with
  | nil => exact absurd rfl hne
  | cons l L' ih =>
    cases L' with
    | nil =>
      show pySplit sep (pyJoin sep [l]) = [l]
      rw [show pyJoin sep [l] = l from rfl]
      exact pySplit_single sep l (hfree l (List.mem_cons_self l []))
    | cons m L'' =>
      rw [pyJoin_cons sep l (m :: L'') (by simp)]
      rw [pySplit_append_cons sep l (pyJoin sep (m :: L''))
        (hfree l (List.mem_cons_self l (m :: L'')))]
      rw [ih (by simp) (fun x hx => hfree x (List.mem_cons_of_mem l hx))]

theorem getLast?_pyJoin (sep : Char) (L : List (List Char)) (lk : List Char)
    (hlast : L.getLast? = some lk) (hlk : lk ≠ []) :
    (pyJoin sep L).getLast? = lk.getLast? := by
  induction L with
  | nil => simp at hlast
  | cons l L' ih =>
    cases L' with
    | nil =>
      have : l = lk := by simpa using hlast
      rw [this]
      rfl
    | cons m L'' =>
      have hlast' : (m :: L'').getLast? = some lk := by
        rw [← List.getLast?_cons_cons (a := l)]
        exact hlast
      have hin := ih hlast'
      rw [pyJoin_cons sep l (m :: L'') (by simp)]
      rw [List.getLast?_append_of_ne_nil l (by simp)]
      cases hX : pyJoin sep (m :: L'') with
      | nil =>
        rw [hX] at hin
        rw [List.getLast?_eq_getLast lk hlk] at hin
        simp at hin
      | cons x xs =>
        rw [hX] at hin
        rw [List.getLast?_cons_cons, hin]

theorem loadLines_ne_nil (c : List Char) : loadLines c ≠ [] := by
  show (if splitlines c = [] then [[]] else splitlines c) ≠ []
  split
  · simp
  · assumption

theorem mem_loadLines_not_mem (c : List Char) :
    ∀ l ∈ loadLines c, '\n' ∉ l := by
  intro l hl
  have hl' : l ∈ (if splitlines c = [] then [[]] else splitlines c) := hl
  clear hl
  rename' hl' => hl
  split at hl
  · simp at hl
    simp [hl]
  · unfold splitlines at hl
    split at hl
    · simp at hl
    · split at hl
      · exact mem_pySplit_not_mem '\n' c l (List.mem_of_mem_dropLast hl)
      · exact mem_pySplit_not_mem '\n' c l hl

theorem loadLines_pyJoin (L : List Line) (hne : L ≠ [])
    (hfree : ∀ l ∈ L, '\n' ∉ l)
    (hlast : L.getLast? ≠ some [] ∨ L.length = 1) :
    loadLines (pyJoin '\n' L) = L := by
  cases L with
  | nil => exact absurd rfl hne
  | cons l L' =>
    cases L' with
    | nil =>
      show loadLines (pyJoin '\n' [l]) = [l]
      rw [show pyJoin '\n' [l] = l from rfl]
      by_cases hl : l = []
      · subst hl
        rfl
      · have hfree' : '\n' ∉ l := hfree l (List.mem_cons_self l [])
        have hlast' : l.getLast? ≠ some '\n' := by
          intro hc
          have := List.getLast?_eq_getLast l hl
          rw [this] at hc
          have heq : l.getLast hl = '\n' := by injection hc
          exact hfree' (heq ▸ List.getLast_mem hl)
        unfold loadLines splitlines
        rw [if_neg hl, if_neg hlast', pySplit_single '\n' l hfree']
        simp
    | cons m L'' =>
      have hlast2 : (l :: m :: L'').getLast? ≠ some [] := by
        rcases hlast with h | h
        · exact h
        · simp at h
      have hsome : ∃ lk, (l :: m :: L'').getLast? = some lk := by
        cases hg : (l :: m :: L'').getLast? with
        | none =>
          rw [List.getLast?_eq_none_iff] at hg
          simp at hg
        | some lk => exact ⟨lk, rfl⟩
      obtain ⟨lk, hlk⟩ := hsome
      have hlknil : lk ≠ [] := by
        intro hc
        rw [hc] at hlk
        exact hlast2 hlk
      have hlkfree : '\n' ∉ lk := by
        apply hfree
        have := List.getLast?_eq_getLast (l :: m :: L'') (by simp)
        rw [this] at hlk
        have heq : (l :: m :: L'').getLast (by simp) = lk := by injection hlk
        exact heq ▸ List.getLast_mem (by simp)
      have hjoin_last := getLast?_pyJoin '\n' (l :: m :: L'') lk hlk hlknil
      have hlkch : ∃ ch, lk.getLast? = some ch ∧ ch ≠ '\n' := by
        refine ⟨lk.getLast hlknil, List.getLast?_eq_getLast lk hlknil, ?_⟩
        intro hc
        exact hlkfree (hc ▸ List.getLast_mem hlknil)
      obtain ⟨ch, hch, hchn⟩ := hlkch
      have hjn : (pyJoin '\n' (l :: m :: L'')).getLast? = some ch := by
        rw [hjoin_last, hch]
      have hjnil : pyJoin '\n' (l :: m :: L'') ≠ [] := by
        intro hc
        rw [hc] at hjn
        simp at hjn
      have hjlast : (pyJoin '\n' (l :: m :: L'')).getLast? ≠ some '\n' := by
        rw [hjn]
        intro hc
        exact hchn (by injection hc)
      unfold loadLines splitlines
      rw [if_neg hjnil, if_neg hjlast, pySplit_pyJoin '\n' _ (by simp) hfree]
      simp

/-- The round trip fails as stated: for the file content `"\n\n"` (whose
lines are all empty, hence contain no embedded newline) the first load
yields two empty lines, saving writes `"\n"`, and reloading yields a
single empty line. -/
theorem c5_round_trip_cex :
    loadLines (save_file (loadLines ['\n', '\n'])) ≠ loadLines ['\n', '\n'] ∧
    loadLines ['\n', '\n'] = [[], []] ∧
    save_file [[], []] = ['\n'] ∧
    loadLines ['\n'] = [[]] := by
  refine ⟨?_, by decide, by decide, by decide⟩
  decide

/-- C5 (amended): loading, saving the loaded lines, and loading again
yields line-for-line identical content, provided the loaded line sequence
does not end with an empty line or has at most one line (equivalently, the
file does not end with two consecutive newlines); a trailing blank line is
lost because `splitlines` produces no final empty segment. -/
theorem c5_round_trip (c : List Char)
    (h : (loadLines c).getLast? ≠ some [] ∨ (loadLines c).length = 1) :
    loadLines (save_file (loadLines c)) = loadLines c := by
  unfold save_file
  exact loadLines_pyJoin (loadLines c) (loadLines_ne_nil c) (mem_loadLines_not_mem c) h

theorem c5_round_trip_witness :
    ((loadLines ['a', '\n', 'b']).getLast? ≠ some [] ∨ (loadLines ['a', '\n', 'b']).length = 1) ∧
    loadLines (save_file (loadLines ['a', '\n', 'b'])) = loadLines ['a', '\n', 'b'] :=
  ⟨by decide, c5_round_trip ['a', '\n', 'b'] (by decide)⟩

/-! ## C7: dirty-flag discipline of the main loop -/

/-- C7: after any main-loop step, the dirty flag is true exactly when the
step mutated the document, or it was already true and the step was not a
successful save or a successful open — i.e. every mutating operation sets
it, and only a successful save or open clears it (never a discard at exit
or a failed save). -/
theorem c7_dirty_step_iff (s : FState) (e : Ev) :
    (step s e).est.dirty = true ↔
      setsDirty s e ∨ (s.est.dirty = true ∧ ¬ clearsDirty s e) := by
  cases e with
  | printable c =>
    by_cases hc : 32 ≤ c.toNat ∧ c.toNat ≤ 126
    · simp [step, hc, insert_char, setsDirty]
    · simp [step, hc, setsDirty, clearsDirty]
  | backspaceKey =>
    by_cases hx : 0 < s.est.cx
    · simp [step, backspace, hx, setsDirty]
    · by_cases hy : 0 < s.est.cy
      · simp [step, backspace, hx, hy, setsDirty]
      · simp [step, backspace, hx, hy, setsDirty, clearsDirty]
  | enterKey => simp [step, split_line, setsDirty]
  | up =>
    by_cases hy : 0 < s.est.cy <;> simp [step, hy, setsDirty, clearsDirty]
  | down =>
    by_cases hy : s.est.cy < s.est.buffer.length - 1 <;>
      simp [step, hy, setsDirty, clearsDirty]
  | left =>
    by_cases hx : 0 < s.est.cx <;> simp [step, hx, setsDirty, clearsDirty]
  | right =>
    by_cases hx : s.est.cx < (curLine s.est).length <;>
      simp [step, hx, setsDirty, clearsDirty]
  | ctrlG => simp [step, setsDirty, clearsDirty]
  | ctrlL => simp [step, setsDirty, clearsDirty]
  | idle => simp [step, setsDirty, clearsDirty]
  | ctrlS ok =>
    cases hf : s.filename with
    | none => cases ok <;> simp [step, hf, setsDirty, clearsDirty]
    | some f => cases ok <;> simp [step, hf, setsDirty, clearsDirty]
  | ctrlO dlg res =>
    cases dlg with
    | none => simp [step, setsDirty, clearsDirty]
    | some n => cases res <;> simp [step, setsDirty, clearsDirty]
  | ctrlV cap =>
    by_cases hcap : cap = [] <;> simp [step, hcap, setsDirty, clearsDirty]
  | ctrlX choice dn ok =>
    cases hd : s.est.dirty with
    | false =>
      simp [step, confirm_exit, hd, setsDirty, clearsDirty]
    | true =>
      by_cases hy : choice = 'y'
      · cases hf : s.filename with
        | none =>
          cases dn with
          | none => simp [step, confirm_exit, hd, hy, hf, setsDirty, clearsDirty, Option.orElse]
          | some n =>
            cases ok <;>
              simp [step, confirm_exit, hd, hy, hf, setsDirty, clearsDirty, Option.orElse]
        | some f =>
          cases ok <;>
            simp [step, confirm_exit, hd, hy, hf, setsDirty, clearsDirty, Option.orElse]
      · by_cases hn : choice = 'n' <;>
          simp [step, confirm_exit, hd, hy, hn, setsDirty, clearsDirty]

/-! ## C8: Escape in the open-with-completion prompt -/

/-- C8 (code bug): `curses.get_wch` delivers the Escape key as the
one-character string `"\x1b"`, but the cancel branch of
`open_file_dialog` compares the input against the integer 27, which a
string never equals, so Escape falls through every branch and leaves the
path-so-far unchanged; a subsequent Enter submits the accumulated path
instead of returning nothing.  (The integer branch itself would cancel,
but `get_wch` returns integers only for function keys.) -/
theorem c8_escape_is_ignored :
    (∀ (maxLen : Nat) (s : DState), dialogStep maxLen s (.ch '\x1b') = .cont s) ∧
    runDialog 80 ⟨[], []⟩ [.ch 'a', .ch '\x1b', .ch '\n'] = some (some ['a']) ∧
    runDialog 80 ⟨[], []⟩ [.ch 'a', .key 27] = some none := by
  refine ⟨?_, by decide, by decide⟩
  intro maxLen s
  rw [dialogStep, if_neg (by decide), if_neg (by decide), if_neg (by decide)]

end MyNano
